import Mathlib

/-!
# Verification of the tile-animation driver of `djui/m3w`

Shallow embedding of the original logic of the repository: the
`AnimatedTile` class (constructor and `update`) and the animated-tile
scan loop of `TilemapScene.create`, together with the per-frame pass of
`TilemapScene.update`.

Numbers: the source works with JavaScript numbers, but every quantity
involved (durations, elapsed time, ids, deltas) is a non-negative integer
in all behaviour the spec describes, so durations, elapsed times and
deltas are `Nat` and tile display indices are `Int` (Phaser uses `-1` for
empty cells, and the scan subtracts `firstgid` from a tile index).
JavaScript operations that crash at runtime (property access on
`undefined`, and the `NaN` poisoning that follows `x % 0`) are modelled
by `Option`: a `none` result is a crash of the original code.
-/

set_option autoImplicit false

/-- One frame of `TileAnimationData`: an element of the source's
`Array<{ duration: number; tileid: number }>`. -/
structure TileFrame where
  duration : Nat
  tileid : Nat
  deriving DecidableEq, Repr

/-- The source type `TileAnimationData = Array<{ duration: number; tileid: number }>`. -/
abbrev TileAnimationData := List TileFrame

/-- The value type of `TilesetTileData`: `{ animation?: TileAnimationData }`. -/
structure TileData where
  animation : Option TileAnimationData
  deriving DecidableEq

/-- The source type `TilesetTileData`, a mapping from local tile id to
per-tile data (`animation` optional),
modelled as an association list from local tile id to per-tile data.
JavaScript object keys are unique; where a proof needs this it assumes
`Nodup` on the keys. -/
abbrev TilesetTileData := List (Nat × TileData)

/-- A tileset as the scan uses it: its `firstgid` and its `tileData` table. -/
structure Tileset where
  firstgid : Nat
  tileData : List (Nat × TileData)

/-- A tile layer as the scan sees it: whether its `tilemapLayer` is a
`StaticTilemapLayer`, and its `data` grid of tile display indices
(`tile.index` of each cell; `-1` marks an empty cell in Phaser). -/
structure Layer where
  isStatic : Bool
  data : List (List Int)
  deriving DecidableEq

/-- The state of one `AnimatedTile` instance.  The source holds a mutable
reference to a `Phaser.Tilemaps.Tile`; here the reference is the position
`(layerIdx, row, col)` of that tile, and `tileIndex` mirrors the referenced
tile's `index` field (the only field of the tile the class reads or writes). -/
structure AnimatedTile where
  layerIdx : Nat
  row : Nat
  col : Nat
  tileIndex : Int
  tileAnimationData : TileAnimationData
  firstgid : Nat
  elapsedTime : Nat
  animationDuration : Nat
  deriving DecidableEq

namespace AnimatedTile

/-- The `AnimatedTile` constructor.  The call site passes
`tileData[tileid].animation`, of type `TileAnimationData | undefined`,
hence the `Option` argument.  The constructor evaluates
`tileAnimationData[0].duration`; when the animation data is `undefined`
or the frame array is empty that is a `TypeError` (crash), modelled as
`none`.  Otherwise `elapsedTime` starts at `0` and `animationDuration`
is `tileAnimationData[0].duration * tileAnimationData.length`. -/
def make (layerIdx row col : Nat) (tileIndex : Int)
    (tileAnimationData : Option TileAnimationData) (firstgid : Nat) :
    Option AnimatedTile :=
  match tileAnimationData with
  | none => none
  | some [] => none
  | some (f0 :: fs) =>
      some { layerIdx := layerIdx
             row := row
             col := col
             tileIndex := tileIndex
             tileAnimationData := f0 :: fs
             firstgid := firstgid
             elapsedTime := 0
             animationDuration := f0.duration * (f0 :: fs).length }

/-- Method `AnimatedTile.update(delta)`.  The source computes
`elapsedTime = (elapsedTime + delta) % animationDuration`, then
`frameIndex = floor(elapsedTime / tileAnimationData[0].duration)`, then
writes `tileAnimationData[frameIndex].tileid + firstgid` into the
referenced tile's `index` field.  Crash points of the original code map
to `none`: `% 0` poisons the index with `NaN` (then
`tileAnimationData[NaN].tileid` is a `TypeError`), an empty frame array
makes `tileAnimationData[0].duration` a `TypeError`, division by a zero
duration yields a non-finite frame index, and a frame index outside the
array makes `.tileid` a `TypeError`. -/
def update (a : AnimatedTile) (delta : Nat) : Option AnimatedTile :=
  if a.animationDuration = 0 then none
  else
    match a.tileAnimationData.head? with
    | none => none
    | some f0 =>
        if f0.duration = 0 then none
        else
          match a.tileAnimationData[((a.elapsedTime + delta) % a.animationDuration) / f0.duration]? with
          | none => none
          | some fr =>
              some { a with
                elapsedTime := (a.elapsedTime + delta) % a.animationDuration
                tileIndex := ((fr.tileid + a.firstgid : Nat) : Int) }

/-- Iterated `update`, one call per element of `deltas` in order. -/
def updates (a : AnimatedTile) : List Nat → Option AnimatedTile
  | [] => some a
  | d :: ds => match a.update d with
    | none => none
    | some a' => a'.updates ds

end AnimatedTile

/-- Innermost loop of the animated-tile scan in `TilemapScene.create`: one
row of a layer's `data`, with `col` the column index of the row's first
element.  For each tile with `tile.index - tileset.firstgid ===
parseInt(tileid, 10)` the source pushes
`new AnimatedTile(tile, tileData[tileid].animation, tileset.firstgid)`;
a crash of that constructor aborts `create`, hence `Option`. -/
def scanRow (firstgid tileid : Nat) (anim : Option TileAnimationData)
    (layerIdx rowIdx : Nat) : Nat → List Int → Option (List AnimatedTile)
  | _, [] => some []
  | col, i :: rest =>
    if i - (firstgid : Int) = (tileid : Int) then
      match AnimatedTile.make layerIdx rowIdx col i anim firstgid,
            scanRow firstgid tileid anim layerIdx rowIdx (col + 1) rest with
      | some a, some rest2 => some (a :: rest2)
      | _, _ => none
    else scanRow firstgid tileid anim layerIdx rowIdx (col + 1) rest

/-- Loop `layer.data.forEach(tileRow => ...)`: scan the rows of one
layer, with `rowIdx` the index of the first row. -/
def scanRows (firstgid tileid : Nat) (anim : Option TileAnimationData)
    (layerIdx : Nat) : Nat → List (List Int) → Option (List AnimatedTile)
  | _, [] => some []
  | rowIdx, row :: rest =>
    match scanRow firstgid tileid anim layerIdx rowIdx 0 row,
          scanRows firstgid tileid anim layerIdx (rowIdx + 1) rest with
    | some xs, some ys => some (xs ++ ys)
    | _, _ => none

/-- Loop `tilemap.layers.forEach(layer => ...)`: a layer whose
`tilemapLayer` is a `StaticTilemapLayer` is skipped (`return` from the
callback) before any of its tiles is read. -/
def scanLayers (firstgid tileid : Nat) (anim : Option TileAnimationData) :
    Nat → List Layer → Option (List AnimatedTile)
  | _, [] => some []
  | layerIdx, lyr :: rest =>
    match (if lyr.isStatic then some [] else
            scanRows firstgid tileid anim layerIdx 0 lyr.data),
          scanLayers firstgid tileid anim (layerIdx + 1) rest with
    | some xs, some ys => some (xs ++ ys)
    | _, _ => none

/-- Loop `for (let tileid in tileData)`: the outer loop over the keys of
the tileset's per-tile metadata table. -/
def scanTileData (firstgid : Nat) (layers : List Layer) :
    List (Nat × TileData) → Option (List AnimatedTile)
  | [] => some []
  | (tileid, td) :: rest =>
    match scanLayers firstgid tileid td.animation 0 layers,
          scanTileData firstgid layers rest with
    | some xs, some ys => some (xs ++ ys)
    | _, _ => none

/-- The animated-tile scan of `TilemapScene.create` (the
"create animated tiles" block): builds `this.animatedTiles`. -/
def createAnimatedTiles (tileset : Tileset) (layers : List Layer) :
    Option (List AnimatedTile) :=
  scanTileData tileset.firstgid layers tileset.tileData

/-- Replace the element at an index, leaving the list unchanged when the
index is out of range. -/
def modifyAt {α : Type} (f : α → α) : Nat → List α → List α
  | _, [] => []
  | 0, x :: xs => f x :: xs
  | n + 1, x :: xs => x :: modifyAt f n xs

/-- Write display index `v` into the tile grid at `(layerIdx, row, col)`:
the effect of `this.tile.index = ...` on the shared tilemap state. -/
def setCell (layers : List Layer) (layerIdx row col : Nat) (v : Int) :
    List Layer :=
  modifyAt
    (fun lyr => { lyr with data := modifyAt (fun r => r.set col v) row lyr.data })
    layerIdx layers

/-- The pass `this.animatedTiles.forEach(tile => tile.update(delta))` of
`TilemapScene.update`, with the shared tile grid threaded explicitly:
each instance's update writes the recomputed display index at the
instance's position in the grid. -/
def updateAnimatedTiles (delta : Nat) :
    List AnimatedTile → List Layer → Option (List Layer × List AnimatedTile)
  | [], layers => some (layers, [])
  | a :: rest, layers =>
    match a.update delta with
    | none => none
    | some a' =>
      match updateAnimatedTiles delta rest
            (setCell layers a.layerIdx a.row a.col a'.tileIndex) with
      | none => none
      | some (layers2, rest2) => some (layers2, a' :: rest2)

/-- Position predicate: is instance `a` bound to the placed tile at
layer `L`, row `R`, column `C`? -/
def atPos (L R C : Nat) (a : AnimatedTile) : Bool :=
  a.layerIdx == L && a.row == R && a.col == C

/-- The record `AnimatedTile.make` returns on a present, non-empty
animation (see `make_some`). -/
def mkTile (layerIdx row col : Nat) (tileIndex : Int) (f0 : TileFrame)
    (fs : List TileFrame) (firstgid : Nat) : AnimatedTile :=
  { layerIdx := layerIdx
    row := row
    col := col
    tileIndex := tileIndex
    tileAnimationData := f0 :: fs
    firstgid := firstgid
    elapsedTime := 0
    animationDuration := f0.duration * (f0 :: fs).length }

/-! ## Shared sample data for witnesses -/

/-- A concrete `AnimatedTile` as the constructor would build it from the
spec's example animation (three frames of 100 ms, `firstgid = 1`). -/
def sampleAnimTile : AnimatedTile :=
  { layerIdx := 0
    row := 0
    col := 0
    tileIndex := 1
    tileAnimationData := [⟨100, 0⟩, ⟨100, 1⟩, ⟨100, 2⟩]
    firstgid := 1
    elapsedTime := 0
    animationDuration := 300 }

/-! ## Claims -/

/-- Shared helper: under the constructor invariant (per-frame duration
taken from the first frame, total duration = duration times frame count),
`update` succeeds and its result is fully described. -/
theorem AnimatedTile.update_run (a : AnimatedTile) (delta : Nat)
    (f0 : TileFrame)
    (hhead : a.tileAnimationData.head? = some f0)
    (hT : a.animationDuration = f0.duration * a.tileAnimationData.length)
    (hd : 0 < f0.duration) :
    ∃ fr, a.tileAnimationData[((a.elapsedTime + delta) % a.animationDuration) / f0.duration]?
        = some fr ∧
      a.update delta = some { a with
        elapsedTime := (a.elapsedTime + delta) % a.animationDuration
        tileIndex := ((fr.tileid + a.firstgid : Nat) : Int) } := by
  have hN : 0 < a.tileAnimationData.length := by
    cases h : a.tileAnimationData with
    | nil => rw [h] at hhead; cases hhead
    | cons x xs => simp [h]
  have hT0 : a.animationDuration ≠ 0 := by
    rw [hT]
    exact Nat.mul_ne_zero (Nat.pos_iff_ne_zero.mp hd) (Nat.pos_iff_ne_zero.mp hN)
  have hlt : (a.elapsedTime + delta) % a.animationDuration < a.animationDuration :=
    Nat.mod_lt _ (Nat.pos_of_ne_zero hT0)
  have hfi : ((a.elapsedTime + delta) % a.animationDuration) / f0.duration <
      a.tileAnimationData.length := by
    rw [Nat.div_lt_iff_lt_mul hd]
    calc (a.elapsedTime + delta) % a.animationDuration
        < a.animationDuration := hlt
      _ = f0.duration * a.tileAnimationData.length := hT
      _ = a.tileAnimationData.length * f0.duration := Nat.mul_comm _ _
  have hfr := List.getElem?_eq_getElem hfi
  refine ⟨_, hfr, ?_⟩
  have hd0 : ¬ f0.duration = 0 := Nat.pos_iff_ne_zero.mp hd
  simp only [AnimatedTile.update, if_neg hT0, hhead, if_neg hd0, hfr]

/-- C1: for every `AnimatedTile` whose per-frame duration `D` is the first
frame's duration and whose total duration is `D * frameCount`, each call
`update(delta)` sets the elapsed time to `(elapsedTime + delta) % total`,
computes `frameIndex = (new elapsed) / D`, and writes
`animationFrames[frameIndex].tileid + firstgid` into the referenced
tile's `index` field. -/
theorem AnimatedTile.update_formula (a : AnimatedTile) (delta : Nat)
    (f0 : TileFrame)
    (hhead : a.tileAnimationData.head? = some f0)
    (hT : a.animationDuration = f0.duration * a.tileAnimationData.length)
    (hd : 0 < f0.duration) :
    ∃ fr, a.tileAnimationData[((a.elapsedTime + delta) % a.animationDuration) / f0.duration]?
        = some fr ∧
      a.update delta = some { a with
        elapsedTime := (a.elapsedTime + delta) % a.animationDuration
        tileIndex := ((fr.tileid + a.firstgid : Nat) : Int) } :=
  AnimatedTile.update_run a delta f0 hhead hT hd

/-- Witness for the update formula at the sample tile with `delta = 150`. -/
theorem AnimatedTile.update_formula_witness :
    ∃ fr, sampleAnimTile.tileAnimationData[((sampleAnimTile.elapsedTime + 150)
          % sampleAnimTile.animationDuration) / (⟨100, 0⟩ : TileFrame).duration]?
        = some fr ∧
      sampleAnimTile.update 150 = some { sampleAnimTile with
        elapsedTime := (sampleAnimTile.elapsedTime + 150) % sampleAnimTile.animationDuration
        tileIndex := ((fr.tileid + sampleAnimTile.firstgid : Nat) : Int) } :=
  AnimatedTile.update_formula sampleAnimTile 150 ⟨100, 0⟩ rfl rfl (by decide)

/-- C2: for the animation `[{100,0},{100,1},{100,2}]` with `firstgid = 1`
and initial elapsed time `0`, `update(150)` gives elapsed time `150`,
frame index `1`, displayed index `2`; a further `update(200)` gives
elapsed time `350 % 300 = 50`, frame index `0`, displayed index `1`. -/
theorem AnimatedTile.concrete_scenario :
    ∃ a0 a1 a2,
      AnimatedTile.make 0 0 0 1 (some [⟨100, 0⟩, ⟨100, 1⟩, ⟨100, 2⟩]) 1
        = some a0 ∧
      a0.elapsedTime = 0 ∧
      a0.update 150 = some a1 ∧ a1.elapsedTime = 150 ∧ a1.tileIndex = 2 ∧
      a1.update 200 = some a2 ∧ a2.elapsedTime = 50 ∧ a2.tileIndex = 1 :=
  ⟨_, _, _, rfl, rfl, rfl, rfl, rfl, rfl, rfl, rfl⟩

/-- Success characterization of `AnimatedTile.update`: shared helper for
the algebraic claims. -/
theorem AnimatedTile.update_eq_some_iff (a b : AnimatedTile) (delta : Nat) :
    a.update delta = some b ↔
      a.animationDuration ≠ 0 ∧
      ∃ f0, a.tileAnimationData.head? = some f0 ∧ f0.duration ≠ 0 ∧
        ∃ fr, a.tileAnimationData[((a.elapsedTime + delta) % a.animationDuration) / f0.duration]?
            = some fr ∧
          b = { a with
            elapsedTime := (a.elapsedTime + delta) % a.animationDuration
            tileIndex := ((fr.tileid + a.firstgid : Nat) : Int) } := by
  by_cases hT : a.animationDuration = 0
  · simp [AnimatedTile.update, hT]
  · cases hh : a.tileAnimationData.head? with
    | none => simp [AnimatedTile.update, hT, hh]
    | some f0 =>
      by_cases hd : f0.duration = 0
      · simp [AnimatedTile.update, hT, hh, hd]
      · cases hg : a.tileAnimationData[((a.elapsedTime + delta)
            % a.animationDuration) / f0.duration]? with
        | none => simp [AnimatedTile.update, hT, hh, hd, hg]
        | some fr => simp [AnimatedTile.update, hT, hh, hd, hg, eq_comm]

/-- C3: applying `update(d1)` then `update(d2)` produces exactly the state
(in particular the displayed tile index) of a single `update(d1 + d2)`
from the same starting state. -/
theorem AnimatedTile.update_additive (a a1 a2 : AnimatedTile) (d1 d2 : Nat)
    (h1 : a.update d1 = some a1) (h2 : a1.update d2 = some a2) :
    a.update (d1 + d2) = some a2 := by
  rw [AnimatedTile.update_eq_some_iff] at h1 h2 ⊢
  obtain ⟨hT, f0, hh, hd, fr, hg, rfl⟩ := h1
  obtain ⟨-, f0', hh', hd', fr', hg', rfl⟩ := h2
  rw [hh] at hh'
  obtain rfl : f0 = f0' := Option.some.inj hh'
  have key : ((a.elapsedTime + d1) % a.animationDuration + d2) % a.animationDuration
      = (a.elapsedTime + (d1 + d2)) % a.animationDuration := by
    rw [Nat.mod_add_mod, Nat.add_assoc]
  rw [key] at hg'
  exact ⟨hT, f0, hh, hd, fr', hg', by dsimp only; rw [key]⟩

/-- Witness for additivity with `d1 = 150`, `d2 = 200` at the sample tile. -/
theorem AnimatedTile.update_additive_witness :
    sampleAnimTile.update (150 + 200)
      = some { sampleAnimTile with elapsedTime := 50, tileIndex := 1 } :=
  AnimatedTile.update_additive sampleAnimTile
    { sampleAnimTile with elapsedTime := 150, tileIndex := 2 }
    { sampleAnimTile with elapsedTime := 50, tileIndex := 1 } 150 200 rfl rfl

/-- C4: for an animation of `N` frames of equal duration `D` (and elapsed
time within bounds, as holds in every reachable state), one call
`update(D * N)` leaves the elapsed time unchanged and writes back the
displayed index of the frame the animation was already in. -/
theorem AnimatedTile.full_cycle (a : AnimatedTile) (f0 : TileFrame)
    (hhead : a.tileAnimationData.head? = some f0)
    (_huni : ∀ f ∈ a.tileAnimationData, f.duration = f0.duration)
    (hT : a.animationDuration = f0.duration * a.tileAnimationData.length)
    (hd : 0 < f0.duration)
    (hinv : a.elapsedTime < a.animationDuration) :
    ∃ fr, a.tileAnimationData[a.elapsedTime / f0.duration]? = some fr ∧
      a.update (f0.duration * a.tileAnimationData.length)
        = some { a with tileIndex := ((fr.tileid + a.firstgid : Nat) : Int) } := by
  obtain ⟨fr, hfr, hupd⟩ :=
    AnimatedTile.update_run a (f0.duration * a.tileAnimationData.length)
      f0 hhead hT hd
  have he : (a.elapsedTime + f0.duration * a.tileAnimationData.length)
      % a.animationDuration = a.elapsedTime := by
    rw [← hT, Nat.add_mod_right]
    exact Nat.mod_eq_of_lt hinv
  rw [he] at hfr hupd
  exact ⟨fr, hfr, hupd⟩

/-- Witness for the full cycle at the sample tile (`D * N = 300`). -/
theorem AnimatedTile.full_cycle_witness :
    ∃ fr, sampleAnimTile.tileAnimationData[sampleAnimTile.elapsedTime
        / (⟨100, 0⟩ : TileFrame).duration]? = some fr ∧
      sampleAnimTile.update ((⟨100, 0⟩ : TileFrame).duration
          * sampleAnimTile.tileAnimationData.length)
        = some { sampleAnimTile with
            tileIndex := ((fr.tileid + sampleAnimTile.firstgid : Nat) : Int) } :=
  AnimatedTile.full_cycle sampleAnimTile ⟨100, 0⟩ rfl (by decide) rfl
    (by decide) (by decide)

/-- Under the constructor's invariant (total duration = first duration ×
frame count, both positive) an update always succeeds, changes only the
clock and the written index, and leaves the clock below the total
duration.  Shared helper. -/
theorem AnimatedTile.update_total (a : AnimatedTile) (delta : Nat)
    (f0 : TileFrame)
    (hhead : a.tileAnimationData.head? = some f0)
    (hT : a.animationDuration = f0.duration * a.tileAnimationData.length)
    (hd : 0 < f0.duration) :
    ∃ a', a.update delta = some a' ∧
      a'.tileAnimationData = a.tileAnimationData ∧
      a'.animationDuration = a.animationDuration ∧
      a'.elapsedTime < a.animationDuration := by
  obtain ⟨fr, hfr, hupd⟩ := AnimatedTile.update_run a delta f0 hhead hT hd
  have hT0 : a.animationDuration ≠ 0 := by
    cases h : a.tileAnimationData with
    | nil => rw [h] at hhead; cases hhead
    | cons x xs =>
      rw [hT, h]
      exact Nat.mul_ne_zero (Nat.pos_iff_ne_zero.mp hd) (by simp)
  exact ⟨_, hupd, rfl, rfl, Nat.mod_lt _ (Nat.pos_of_ne_zero hT0)⟩

/-- Any sequence of updates from a state whose clock is in bounds keeps
the clock in bounds.  Shared helper. -/
theorem AnimatedTile.updates_bounded (ds : List Nat) :
    ∀ (a : AnimatedTile) (f0 : TileFrame),
      a.tileAnimationData.head? = some f0 →
      a.animationDuration = f0.duration * a.tileAnimationData.length →
      0 < f0.duration →
      a.elapsedTime < a.animationDuration →
      ∃ a', a.updates ds = some a' ∧
        a'.animationDuration = a.animationDuration ∧
        a'.elapsedTime < a.animationDuration := by
  induction ds with
  | nil => exact fun a f0 _ _ _ hin => ⟨a, rfl, rfl, hin⟩
  | cons d ds ih =>
    intro a f0 hh hT hd hin
    obtain ⟨a1, h1, hAd, hTd, hlt⟩ := AnimatedTile.update_total a d f0 hh hT hd
    obtain ⟨a2, h2, hTd2, hlt2⟩ :=
      ih a1 f0 (by rw [hAd]; exact hh) (by rw [hTd, hAd]; exact hT) hd
        (by rw [hTd]; exact hlt)
    refine ⟨a2, ?_, by rw [hTd2, hTd], by rw [← hTd]; exact hlt2⟩
    simp [AnimatedTile.updates, h1, h2]

/-- C8: for every `AnimatedTile` built by the constructor whose total
animation duration is positive, the elapsed-time counter is `0` at
construction and stays in `[0, animationDuration)` after every sequence
of `update` calls. -/
theorem AnimatedTile.elapsed_invariant (layerIdx row col : Nat)
    (tileIndex : Int) (anim : Option TileAnimationData) (firstgid : Nat)
    (a : AnimatedTile)
    (hmk : AnimatedTile.make layerIdx row col tileIndex anim firstgid = some a)
    (hpos : 0 < a.animationDuration) (ds : List Nat) :
    a.elapsedTime = 0 ∧
    ∃ a', a.updates ds = some a' ∧ a'.elapsedTime < a.animationDuration := by
  cases anim with
  | none => exact Option.noConfusion hmk
  | some l =>
    cases l with
    | nil => exact Option.noConfusion hmk
    | cons f0 fs =>
      have heq : a =
          { layerIdx := layerIdx
            row := row
            col := col
            tileIndex := tileIndex
            tileAnimationData := f0 :: fs
            firstgid := firstgid
            elapsedTime := 0
            animationDuration := f0.duration * (f0 :: fs).length } :=
        (Option.some.inj hmk).symm
      have hh : a.tileAnimationData.head? = some f0 := by rw [heq]; rfl
      have hT : a.animationDuration = f0.duration * a.tileAnimationData.length := by
        rw [heq]
      have hzero : a.elapsedTime = 0 := by rw [heq]
      have hd : 0 < f0.duration := by
        have hpos' : 0 < f0.duration * a.tileAnimationData.length := hT ▸ hpos
        rcases Nat.eq_zero_or_pos f0.duration with h | h
        · rw [h] at hpos'; simp at hpos'
        · exact h
      obtain ⟨a', h', -, hlt⟩ :=
        AnimatedTile.updates_bounded ds a f0 hh hT hd (by rw [hzero]; exact hpos)
      exact ⟨hzero, a', h', hlt⟩

/-- Witness: the counter of the sample tile is `0` at construction and
below `300` after the updates `150` then `200`. -/
theorem AnimatedTile.elapsed_invariant_witness :
    sampleAnimTile.elapsedTime = 0 ∧
    ∃ a', sampleAnimTile.updates [150, 200] = some a' ∧
      a'.elapsedTime < sampleAnimTile.animationDuration :=
  AnimatedTile.elapsed_invariant 0 0 0 1
    (some [⟨100, 0⟩, ⟨100, 1⟩, ⟨100, 2⟩]) 1 sampleAnimTile rfl (by decide)
    [150, 200]

/-- C9 counterexample: the constructor accepts the malformed definition
`[{duration: 0, tileid: 0}]`, whose total duration is `0`, without any
configuration error; the failure only surfaces later, inside `update`. -/
theorem AnimatedTile.make_no_validation :
    ∃ a, AnimatedTile.make 0 0 0 1 (some [⟨0, 0⟩]) 1 = some a ∧
      a.update 16 = none :=
  ⟨_, rfl, rfl⟩

/-- C9 (amended): the constructor performs no validation.  A missing or
empty frame list crashes the constructor itself (an `undefined` property
access, not a configuration error), while a definition with zero total
duration is accepted at construction and every later `update` call
crashes on the modulo/division by zero. -/
theorem AnimatedTile.malformed_behavior :
    (∀ layerIdx row col tileIndex firstgid,
      AnimatedTile.make layerIdx row col tileIndex none firstgid = none) ∧
    (∀ layerIdx row col tileIndex firstgid,
      AnimatedTile.make layerIdx row col tileIndex (some []) firstgid
        = none) ∧
    (∀ layerIdx row col tileIndex firstgid f0 fs a delta,
      f0.duration = 0 →
      AnimatedTile.make layerIdx row col tileIndex (some (f0 :: fs)) firstgid
        = some a →
      a.update delta = none) := by
  refine ⟨fun _ _ _ _ _ => rfl, fun _ _ _ _ _ => rfl, ?_⟩
  rintro li r c ti g f0 fs a d hd hmk
  have heq : a.animationDuration = f0.duration * (f0 :: fs).length := by
    rw [← Option.some.inj hmk]
  have hT : a.animationDuration = 0 := by rw [heq, hd, Nat.zero_mul]
  simp [AnimatedTile.update, hT]

/-- Witness for the amended C9 statement: the zero-duration branch applied
to the one-frame definition `[{duration: 0, tileid: 5}]`. -/
theorem AnimatedTile.malformed_behavior_witness :
    ({ layerIdx := 0
       row := 0
       col := 0
       tileIndex := 1
       tileAnimationData := [⟨0, 5⟩]
       firstgid := 1
       elapsedTime := 0
       animationDuration := 0 } : AnimatedTile).update 7 = none :=
  AnimatedTile.malformed_behavior.2.2 0 0 0 1 1 ⟨0, 5⟩ [] _ 7 rfl rfl

/-- C10: a successful `update` writes the tile's index field
unconditionally.  First part: right after construction, `update(0)`
writes the first frame's `tileid + firstgid` even though no time has
elapsed.  Second part, from an actual scan: the scanned tile's index is
`6` (local id `5`, the animation key), but the animation's first frame
displays local id `7`, so `update(0)` changes the displayed index from
`6` to `8`. -/
theorem AnimatedTile.update_zero_overwrites :
    (∀ layerIdx row col tileIndex anim firstgid a f0 fs,
      anim = some (f0 :: fs) → 0 < f0.duration →
      AnimatedTile.make layerIdx row col tileIndex anim firstgid = some a →
      ∃ a', a.update 0 = some a' ∧
        a'.tileIndex = ((f0.tileid + firstgid : Nat) : Int)) ∧
    (∃ a a', createAnimatedTiles
        { firstgid := 1
          tileData := [(5, { animation := some [⟨100, 7⟩, ⟨100, 5⟩] })] }
        [{ isStatic := false, data := [[6]] }] = some [a] ∧
      a.update 0 = some a' ∧ a.tileIndex = 6 ∧ a'.tileIndex = 8) := by
  constructor
  · rintro li r c ti anim g a f0 fs rfl hd hmk
    have heq : a =
        { layerIdx := li
          row := r
          col := c
          tileIndex := ti
          tileAnimationData := f0 :: fs
          firstgid := g
          elapsedTime := 0
          animationDuration := f0.duration * (f0 :: fs).length } :=
      (Option.some.inj hmk).symm
    have hh : a.tileAnimationData.head? = some f0 := by rw [heq]; rfl
    have hT : a.animationDuration = f0.duration * a.tileAnimationData.length := by
      rw [heq]
    have hz : a.elapsedTime = 0 := by rw [heq]
    have hg : a.firstgid = g := by rw [heq]
    obtain ⟨fr, hfr, hupd⟩ := AnimatedTile.update_run a 0 f0 hh hT hd
    rw [hz] at hfr hupd
    simp only [Nat.zero_add, Nat.zero_mod, Nat.zero_div] at hfr hupd
    obtain rfl : fr = f0 := by
      rw [List.head?_eq_getElem?, hfr] at hh
      exact Option.some.inj hh
    refine ⟨_, hupd, ?_⟩
    rw [hg]
  · exact ⟨_, _, rfl, rfl, rfl, rfl⟩

/-- Witness: at the sample tile, `update(0)` writes frame `0`'s local id
plus the first gid. -/
theorem AnimatedTile.update_zero_overwrites_witness :
    ∃ a', sampleAnimTile.update 0 = some a' ∧
      a'.tileIndex = (((⟨100, 0⟩ : TileFrame).tileid + 1 : Nat) : Int) :=
  AnimatedTile.update_zero_overwrites.1 0 0 0 1
    (some [⟨100, 0⟩, ⟨100, 1⟩, ⟨100, 2⟩]) 1 sampleAnimTile ⟨100, 0⟩
    [⟨100, 1⟩, ⟨100, 2⟩] rfl (by decide) rfl

/-- On a present, non-empty animation the constructor succeeds and returns
the `mkTile` record. -/
theorem make_some (layerIdx row col : Nat) (tileIndex : Int) (f0 : TileFrame)
    (fs : List TileFrame) (firstgid : Nat) :
    AnimatedTile.make layerIdx row col tileIndex (some (f0 :: fs)) firstgid
      = some (mkTile layerIdx row col tileIndex f0 fs firstgid) := rfl

/-- A successful construction records the position it was given. -/
theorem make_fields (layerIdx row col : Nat) (tileIndex : Int)
    (anim : Option TileAnimationData) (firstgid : Nat) (a : AnimatedTile)
    (hmk : AnimatedTile.make layerIdx row col tileIndex anim firstgid
      = some a) :
    a.layerIdx = layerIdx ∧ a.row = row ∧ a.col = col := by
  cases anim with
  | none => exact Option.noConfusion hmk
  | some l =>
    cases l with
    | nil => exact Option.noConfusion hmk
    | cons f0 fs =>
      obtain rfl := (Option.some.inj hmk).symm
      exact ⟨rfl, rfl, rfl⟩

/-- `modifyAt` addressed through `getElem?`. -/
theorem modifyAt_get? {α : Type} (f : α → α) :
    ∀ (n j : Nat) (l : List α),
      (modifyAt f n l)[j]? = if j = n then (l[j]?).map f else l[j]? := by
  intro n j l
  induction l generalizing n j with
  | nil => simp [modifyAt]
  | cons x xs ih =>
    cases n with
    | zero =>
      cases j with
      | zero => simp [modifyAt]
      | succ j => simp [modifyAt]
    | succ n =>
      cases j with
      | zero => simp [modifyAt]
      | succ j => simpa [modifyAt] using ih n j

/-- Reading a layer other than the written one after `setCell`. -/
theorem setCell_get?_ne (layers : List Layer) (li r c : Nat) (v : Int)
    (j : Nat) (hne : j ≠ li) :
    (setCell layers li r c v)[j]? = layers[j]? := by
  rw [setCell, modifyAt_get?, if_neg hne]

/-- `setCell` never changes whether a layer is static. -/
theorem setCell_isStatic (layers : List Layer) (li r c : Nat) (v : Int)
    (j : Nat) :
    ((setCell layers li r c v)[j]?).map Layer.isStatic
      = (layers[j]?).map Layer.isStatic := by
  rw [setCell, modifyAt_get?]
  split
  · cases layers[j]? <;> rfl
  · rfl

/-- Every instance the row scan produces carries the scanned layer and
row indices. -/
theorem scanRow_mem (g k : Nat) (anim : Option TileAnimationData)
    (li ri : Nat) :
    ∀ (s : Nat) (row : List Int) (out : List AnimatedTile),
      scanRow g k anim li ri s row = some out →
      ∀ a ∈ out, a.layerIdx = li ∧ a.row = ri := by
  intro s row
  induction row generalizing s with
  | nil =>
    intro out h a ha
    obtain rfl := (Option.some.inj h).symm
    cases ha
  | cons i rest ih =>
    intro out h a ha
    by_cases hm : i - (g : Int) = (k : Int)
    · rw [scanRow, if_pos hm] at h
      cases hmk : AnimatedTile.make li ri s i anim g with
      | none => rw [hmk] at h; exact Option.noConfusion h
      | some a0 =>
        cases hrec : scanRow g k anim li ri (s + 1) rest with
        | none => rw [hmk, hrec] at h; exact Option.noConfusion h
        | some out1 =>
          rw [hmk, hrec] at h
          obtain rfl := (Option.some.inj h).symm
          rcases List.mem_cons.mp ha with rfl | ha
          · obtain ⟨h1, h2, -⟩ := make_fields _ _ _ _ _ _ _ hmk
            exact ⟨h1, h2⟩
          · exact ih (s + 1) out1 hrec a ha
    · rw [scanRow, if_neg hm] at h
      exact ih (s + 1) out h a ha

/-- Every instance the per-layer scan produces carries the scanned layer
index. -/
theorem scanRows_mem (g k : Nat) (anim : Option TileAnimationData)
    (li : Nat) :
    ∀ (r0 : Nat) (rows : List (List Int)) (out : List AnimatedTile),
      scanRows g k anim li r0 rows = some out →
      ∀ a ∈ out, a.layerIdx = li := by
  intro r0 rows
  induction rows generalizing r0 with
  | nil =>
    intro out h a ha
    obtain rfl := (Option.some.inj h).symm
    cases ha
  | cons row rest ih =>
    intro out h a ha
    cases h1 : scanRow g k anim li r0 0 row with
    | none => rw [scanRows, h1] at h; exact Option.noConfusion h
    | some xs =>
      cases h2 : scanRows g k anim li (r0 + 1) rest with
      | none => rw [scanRows, h1, h2] at h; exact Option.noConfusion h
      | some ys =>
        rw [scanRows, h1, h2] at h
        obtain rfl := (Option.some.inj h).symm
        rcases List.mem_append.mp ha with ha | ha
        · exact (scanRow_mem g k anim li r0 0 row xs h1 a ha).1
        · exact ih (r0 + 1) ys h2 a ha

/-- Reduction helper for the `isStatic` test once the flag is known. -/
theorem if_true_bool {α : Type} (t e : α) : (if (true = true) then t else e) = t :=
  rfl

/-- Reduction helper for the `isStatic` test once the flag is known. -/
theorem if_false_bool {α : Type} (t e : α) : (if (false = true) then t else e) = e :=
  rfl

/-- Every instance the multi-layer scan produces points into a layer of
the scanned list that is not static. -/
theorem scanLayers_mem (g k : Nat) (anim : Option TileAnimationData) :
    ∀ (l0 : Nat) (ls : List Layer) (out : List AnimatedTile),
      scanLayers g k anim l0 ls = some out →
      ∀ a ∈ out, ∃ j lyr, ls[j]? = some lyr ∧ lyr.isStatic = false ∧
        a.layerIdx = l0 + j := by
  intro l0 ls
  induction ls generalizing l0 with
  | nil =>
    intro out h a ha
    obtain rfl := (Option.some.inj h).symm
    cases ha
  | cons lyr rest ih =>
    intro out h a ha
    cases h2 : scanLayers g k anim (l0 + 1) rest with
    | none =>
      rw [scanLayers, h2] at h
      cases hst : lyr.isStatic with
      | true =>
        rw [hst, if_true_bool] at h
        exact Option.noConfusion h
      | false =>
        rw [hst, if_false_bool] at h
        cases hrows : scanRows g k anim l0 0 lyr.data with
        | none => rw [hrows] at h; exact Option.noConfusion h
        | some xs => rw [hrows] at h; exact Option.noConfusion h
    | some ys =>
      rw [scanLayers, h2] at h
      cases hst : lyr.isStatic with
      | true =>
        rw [hst, if_true_bool] at h
        replace h : some (([] : List AnimatedTile) ++ ys) = some out := h
        have h3 := Option.some.inj h
        subst h3
        rcases List.mem_append.mp ha with ha | ha
        · cases ha
        · obtain ⟨j, lyr1, hj, hst1, hidx⟩ := ih (l0 + 1) ys h2 a ha
          exact ⟨j + 1, lyr1, by simpa using hj, hst1, by omega⟩
      | false =>
        rw [hst, if_false_bool] at h
        cases hrows : scanRows g k anim l0 0 lyr.data with
        | none => rw [hrows] at h; exact Option.noConfusion h
        | some xs =>
          rw [hrows] at h
          replace h : some (xs ++ ys) = some out := h
          have h3 := Option.some.inj h
          subst h3
          rcases List.mem_append.mp ha with ha | ha
          · refine ⟨0, lyr, List.getElem?_cons_zero, hst, ?_⟩
            rw [scanRows_mem g k anim l0 0 lyr.data xs hrows a ha, Nat.add_zero]
          · obtain ⟨j, lyr1, hj, hst1, hidx⟩ := ih (l0 + 1) ys h2 a ha
            exact ⟨j + 1, lyr1, by simpa using hj, hst1, by omega⟩

/-- Every instance the full scan produces points into a non-static layer
of the tilemap. -/
theorem scanTileData_mem (g : Nat) (ls : List Layer) :
    ∀ (tds : List (Nat × TileData)) (out : List AnimatedTile),
      scanTileData g ls tds = some out →
      ∀ a ∈ out, ∃ lyr, ls[a.layerIdx]? = some lyr ∧ lyr.isStatic = false := by
  intro tds
  induction tds with
  | nil =>
    intro out h a ha
    obtain rfl := (Option.some.inj h).symm
    cases ha
  | cons p rest ih =>
    intro out h a ha
    obtain ⟨k, td⟩ := p
    cases h1 : scanLayers g k td.animation 0 ls with
    | none => rw [scanTileData, h1] at h; exact Option.noConfusion h
    | some xs =>
      cases h2 : scanTileData g ls rest with
      | none => rw [scanTileData, h1, h2] at h; exact Option.noConfusion h
      | some ys =>
        rw [scanTileData, h1, h2] at h
        obtain rfl := (Option.some.inj h).symm
        rcases List.mem_append.mp ha with ha | ha
        · obtain ⟨j, lyr, hj, hst, hidx⟩ :=
            scanLayers_mem g k td.animation 0 ls xs h1 a ha
          rw [hidx, Nat.zero_add]
          exact ⟨lyr, hj, hst⟩
        · exact ih ys h2 a ha

/-- Unfolding of the per-frame pass on a cons cell whose head updates
successfully. -/
theorem updateAnimatedTiles_cons (delta : Nat) (a a1 : AnimatedTile)
    (rest : List AnimatedTile) (layers : List Layer)
    (hu : a.update delta = some a1) :
    updateAnimatedTiles delta (a :: rest) layers =
      match updateAnimatedTiles delta rest
          (setCell layers a.layerIdx a.row a.col a1.tileIndex) with
      | none => none
      | some (layers2, rest2) => some (layers2, a1 :: rest2) := by
  rw [updateAnimatedTiles, hu]

/-- Threading the per-frame pass through the grid never changes a layer
that no instance references, in particular one every instance avoids
because it is static. -/
theorem updateAnimatedTiles_static (delta : Nat) :
    ∀ (ats : List AnimatedTile) (layers layers2 : List Layer)
      (ats2 : List AnimatedTile),
      updateAnimatedTiles delta ats layers = some (layers2, ats2) →
      (∀ a ∈ ats, ∀ lyr : Layer, layers[a.layerIdx]? = some lyr →
        lyr.isStatic = false) →
      ∀ (L : Nat) (lyr : Layer), layers[L]? = some lyr →
        lyr.isStatic = true → layers2[L]? = some lyr := by
  intro ats
  induction ats with
  | nil =>
    intro layers layers2 ats2 h hdyn L lyr hL hstat
    replace h : some (layers, ([] : List AnimatedTile))
        = some (layers2, ats2) := h
    have h3 := Option.some.inj h
    rw [Prod.mk.injEq] at h3
    obtain ⟨rfl, rfl⟩ := h3
    exact hL
  | cons a rest ih =>
    intro layers layers2 ats2 h hdyn L lyr hL hstat
    cases hu : a.update delta with
    | none => rw [updateAnimatedTiles, hu] at h; exact Option.noConfusion h
    | some a1 =>
      rw [updateAnimatedTiles_cons delta a a1 rest layers hu] at h
      cases hrec : updateAnimatedTiles delta rest
          (setCell layers a.layerIdx a.row a.col a1.tileIndex) with
      | none => rw [hrec] at h; exact Option.noConfusion h
      | some pr =>
        obtain ⟨layersR, restR⟩ := pr
        rw [hrec] at h
        replace h : some (layersR, a1 :: restR) = some (layers2, ats2) := h
        have h3 := Option.some.inj h
        rw [Prod.mk.injEq] at h3
        obtain ⟨rfl, rfl⟩ := h3
        have hne : a.layerIdx ≠ L := by
          intro e
          have hfalse := hdyn a (List.mem_cons_self a rest) lyr
            (by rw [e]; exact hL)
          rw [hfalse] at hstat
          exact Bool.noConfusion hstat
        have hL1 : (setCell layers a.layerIdx a.row a.col a1.tileIndex)[L]?
            = some lyr := by
          rw [setCell_get?_ne layers a.layerIdx a.row a.col a1.tileIndex L
            (Ne.symm hne)]
          exact hL
        refine ih (setCell layers a.layerIdx a.row a.col a1.tileIndex)
          layersR restR hrec ?_ L lyr hL1 hstat
        intro b hb lyr1 hb1
        have hmap := setCell_isStatic layers a.layerIdx a.row a.col
          a1.tileIndex b.layerIdx
        rw [hb1] at hmap
        cases ho : layers[b.layerIdx]? with
        | none => rw [ho] at hmap; exact Option.noConfusion hmap
        | some lyr0 =>
          rw [ho] at hmap
          replace hmap : some lyr1.isStatic = some lyr0.isStatic := hmap
          rw [Option.some.inj hmap]
          exact hdyn b (List.mem_cons_of_mem a hb) lyr0 ho

/-- C6: static layers are invisible to the driver: no Animated Tile
Instance produced by the scan references a static layer, and the
per-frame pass leaves every static layer of the grid exactly as it was,
even when a static-layer tile's index matches an animated tile id. -/
theorem staticLayers_untouched (tileset : Tileset) (layers : List Layer)
    (ats : List AnimatedTile)
    (hscan : createAnimatedTiles tileset layers = some ats) :
    (∀ a ∈ ats, ∀ lyr : Layer, layers[a.layerIdx]? = some lyr →
      lyr.isStatic = false) ∧
    (∀ (delta : Nat) (layers2 : List Layer) (ats2 : List AnimatedTile),
      updateAnimatedTiles delta ats layers = some (layers2, ats2) →
      ∀ (L : Nat) (lyr : Layer), layers[L]? = some lyr →
        lyr.isStatic = true → layers2[L]? = some lyr) := by
  have hdyn : ∀ a ∈ ats, ∀ lyr : Layer, layers[a.layerIdx]? = some lyr →
      lyr.isStatic = false := by
    intro a ha lyr hl
    obtain ⟨lyr0, hl0, hst0⟩ :=
      scanTileData_mem tileset.firstgid layers tileset.tileData ats hscan a ha
    rw [hl0] at hl
    obtain rfl := Option.some.inj hl
    exact hst0
  exact ⟨hdyn, fun delta layers2 ats2 h =>
    updateAnimatedTiles_static delta ats layers layers2 ats2 h hdyn⟩

/-- Witness: a two-layer map whose static layer holds the same tile id as
the dynamic one; only the dynamic layer's tile is wrapped and the frame
pass leaves the static layer intact. -/
theorem staticLayers_untouched_witness :
    (∀ a ∈ [mkTile 1 0 0 6 ⟨100, 7⟩ [⟨100, 5⟩] 1], ∀ lyr : Layer,
      [({ isStatic := true, data := [[6]] } : Layer),
       { isStatic := false, data := [[6]] }][a.layerIdx]? = some lyr →
      lyr.isStatic = false) ∧
    (∀ (delta : Nat) (layers2 : List Layer) (ats2 : List AnimatedTile),
      updateAnimatedTiles delta [mkTile 1 0 0 6 ⟨100, 7⟩ [⟨100, 5⟩] 1]
        [({ isStatic := true, data := [[6]] } : Layer),
         { isStatic := false, data := [[6]] }] = some (layers2, ats2) →
      ∀ (L : Nat) (lyr : Layer),
        [({ isStatic := true, data := [[6]] } : Layer),
         { isStatic := false, data := [[6]] }][L]? = some lyr →
        lyr.isStatic = true → layers2[L]? = some lyr) :=
  staticLayers_untouched
    { firstgid := 1
      tileData := [(5, { animation := some [⟨100, 7⟩, ⟨100, 5⟩] })] }
    [{ isStatic := true, data := [[6]] }, { isStatic := false, data := [[6]] }]
    [mkTile 1 0 0 6 ⟨100, 7⟩ [⟨100, 5⟩] 1] rfl

/-- C7: an empty per-tile metadata table produces zero Animated Tile
Instances, and the per-frame pass over the empty instance set is a no-op
returning the tile grid unchanged. -/
theorem emptyTileData_noop (tileset : Tileset) (layers : List Layer)
    (delta : Nat) (hempty : tileset.tileData = []) :
    createAnimatedTiles tileset layers = some [] ∧
    updateAnimatedTiles delta [] layers = some (layers, []) := by
  constructor
  · rw [createAnimatedTiles, hempty]
    rfl
  · rfl

/-- Witness: the empty metadata table on a one-layer map. -/
theorem emptyTileData_noop_witness :
    createAnimatedTiles { firstgid := 1, tileData := [] }
      [{ isStatic := false, data := [[6]] }] = some [] ∧
    updateAnimatedTiles 16 [] [{ isStatic := false, data := [[6]] }]
      = some ([{ isStatic := false, data := [[6]] }], []) :=
  emptyTileData_noop { firstgid := 1, tileData := [] }
    [{ isStatic := false, data := [[6]] }] 16 rfl

open scoped Classical in
/-- Exact count of instances the row scan creates at one position: one if
the cell at that column exists and matches the key, zero otherwise. -/
theorem scanRow_count (g k : Nat) (f0 : TileFrame) (fs : List TileFrame)
    (li ri C : Nat) :
    ∀ (s : Nat) (row : List Int),
      ∃ out, scanRow g k (some (f0 :: fs)) li ri s row = some out ∧
        out.countP (atPos li ri C) =
          (if s ≤ C ∧ (∃ i, row[C - s]? = some i ∧ i - (g : Int) = (k : Int))
            then 1 else 0) := by
  intro s row
  induction row generalizing s with
  | nil =>
    refine ⟨[], rfl, ?_⟩
    have hno : ¬(s ≤ C ∧ (∃ i, (([] : List Int))[C - s]? = some i ∧
        i - (g : Int) = (k : Int))) := by
      rintro ⟨-, i, hi, -⟩
      exact Option.noConfusion hi
    rw [if_neg hno]
    rfl
  | cons i0 rest ih =>
    obtain ⟨out1, h1, hc1⟩ := ih (s + 1)
    by_cases hm : i0 - (g : Int) = (k : Int)
    · refine ⟨mkTile li ri s i0 f0 fs g :: out1, ?_, ?_⟩
      · rw [scanRow, if_pos hm, make_some, h1]
      · rw [List.countP_cons]
        have hpos : atPos li ri C (mkTile li ri s i0 f0 fs g) = (s == C) := by
          simp [atPos, mkTile]
        rw [hpos, hc1]
        rcases Nat.lt_trichotomy C s with hlt | rfl | hgt
        · have hb : (s == C) = false := by
            rw [beq_eq_false_iff_ne]
            omega
          have hno1 : ¬(s + 1 ≤ C ∧ (∃ i, rest[C - (s + 1)]? = some i ∧
              i - (g : Int) = (k : Int))) := fun hh => absurd hh.1 (by omega)
          have hno2 : ¬(s ≤ C ∧ (∃ i, (i0 :: rest)[C - s]? = some i ∧
              i - (g : Int) = (k : Int))) := fun hh => absurd hh.1 (by omega)
          rw [hb, if_false_bool, if_neg hno1, if_neg hno2]
        · have hb : (C == C) = true := by simp
          have hno1 : ¬(C + 1 ≤ C ∧ (∃ i, rest[C - (C + 1)]? = some i ∧
              i - (g : Int) = (k : Int))) := fun hh => absurd hh.1 (by omega)
          have hyes : C ≤ C ∧ (∃ i, (i0 :: rest)[C - C]? = some i ∧
              i - (g : Int) = (k : Int)) := by
            refine ⟨Nat.le_refl C, i0, ?_, hm⟩
            rw [Nat.sub_self]
            exact List.getElem?_cons_zero
          rw [hb, if_true_bool, if_neg hno1, if_pos hyes]
        · have hb : (s == C) = false := by
            rw [beq_eq_false_iff_ne]
            omega
          have hshift : C - s = (C - (s + 1)) + 1 := by omega
          have hiff : (s + 1 ≤ C ∧ (∃ i, rest[C - (s + 1)]? = some i ∧
              i - (g : Int) = (k : Int)))
              ↔ (s ≤ C ∧ (∃ i, (i0 :: rest)[C - s]? = some i ∧
                i - (g : Int) = (k : Int))) := by
            rw [hshift, List.getElem?_cons_succ]
            constructor
            · rintro ⟨-, hi⟩
              exact ⟨by omega, hi⟩
            · rintro ⟨-, hi⟩
              exact ⟨by omega, hi⟩
          rw [hb, if_false_bool, Nat.add_zero]
          exact if_congr hiff rfl rfl
    · refine ⟨out1, ?_, ?_⟩
      · rw [scanRow, if_neg hm]
        exact h1
      · rw [hc1]
        rcases Nat.lt_trichotomy C s with hlt | rfl | hgt
        · have hno1 : ¬(s + 1 ≤ C ∧ (∃ i, rest[C - (s + 1)]? = some i ∧
              i - (g : Int) = (k : Int))) := fun hh => absurd hh.1 (by omega)
          have hno2 : ¬(s ≤ C ∧ (∃ i, (i0 :: rest)[C - s]? = some i ∧
              i - (g : Int) = (k : Int))) := fun hh => absurd hh.1 (by omega)
          rw [if_neg hno1, if_neg hno2]
        · have hno1 : ¬(C + 1 ≤ C ∧ (∃ i, rest[C - (C + 1)]? = some i ∧
              i - (g : Int) = (k : Int))) := fun hh => absurd hh.1 (by omega)
          have hno2 : ¬(C ≤ C ∧ (∃ i, (i0 :: rest)[C - C]? = some i ∧
              i - (g : Int) = (k : Int))) := by
            rintro ⟨-, i, hi, hmi⟩
            rw [Nat.sub_self, List.getElem?_cons_zero] at hi
            obtain rfl := Option.some.inj hi
            exact hm hmi
          rw [if_neg hno1, if_neg hno2]
        · have hshift : C - s = (C - (s + 1)) + 1 := by omega
          have hiff : (s + 1 ≤ C ∧ (∃ i, rest[C - (s + 1)]? = some i ∧
              i - (g : Int) = (k : Int)))
              ↔ (s ≤ C ∧ (∃ i, (i0 :: rest)[C - s]? = some i ∧
                i - (g : Int) = (k : Int))) := by
            rw [hshift, List.getElem?_cons_succ]
            constructor
            · rintro ⟨-, hi⟩
              exact ⟨by omega, hi⟩
            · rintro ⟨-, hi⟩
              exact ⟨by omega, hi⟩
          exact if_congr hiff rfl rfl

open scoped Classical in
/-- Exact count of instances one layer's scan creates at one position. -/
theorem scanRows_count (g k : Nat) (f0 : TileFrame) (fs : List TileFrame)
    (li R C : Nat) :
    ∀ (r0 : Nat) (rows : List (List Int)),
      ∃ out, scanRows g k (some (f0 :: fs)) li r0 rows = some out ∧
        out.countP (atPos li R C) =
          (if r0 ≤ R ∧ (∃ row i, rows[R - r0]? = some row ∧
              row[C]? = some i ∧ i - (g : Int) = (k : Int))
            then 1 else 0) := by
  intro r0 rows
  induction rows generalizing r0 with
  | nil =>
    refine ⟨[], rfl, ?_⟩
    have hno : ¬(r0 ≤ R ∧ (∃ row i, (([] : List (List Int)))[R - r0]?
        = some row ∧ row[C]? = some i ∧ i - (g : Int) = (k : Int))) := by
      rintro ⟨-, row, i, hrow, -, -⟩
      exact Option.noConfusion hrow
    rw [if_neg hno]
    rfl
  | cons row rest ih =>
    obtain ⟨out1, h1, hc1⟩ := scanRow_count g k f0 fs li r0 C 0 row
    obtain ⟨out2, h2, hc2⟩ := ih (r0 + 1)
    refine ⟨out1 ++ out2, ?_, ?_⟩
    · rw [scanRows, h1, h2]
    · rw [List.countP_append]
      rcases Nat.lt_trichotomy R r0 with hlt | rfl | hgt
      · have hz1 : out1.countP (atPos li R C) = 0 := by
          rw [List.countP_eq_zero]
          intro a ha hp
          have hr := (scanRow_mem g k (some (f0 :: fs)) li r0 0 row out1
            h1 a ha).2
          rw [atPos] at hp
          simp only [Bool.and_eq_true, beq_iff_eq] at hp
          rw [hr] at hp
          omega
        have hno2 : ¬(r0 + 1 ≤ R ∧ (∃ row2 i, rest[R - (r0 + 1)]?
            = some row2 ∧ row2[C]? = some i ∧ i - (g : Int) = (k : Int))) :=
          fun hh => absurd hh.1 (by omega)
        have hnoR : ¬(r0 ≤ R ∧ (∃ row2 i, (row :: rest)[R - r0]?
            = some row2 ∧ row2[C]? = some i ∧ i - (g : Int) = (k : Int))) :=
          fun hh => absurd hh.1 (by omega)
        rw [hz1, hc2, if_neg hno2, if_neg hnoR]
      · have hc1R : out1.countP (atPos li R C) =
            (if (∃ i, row[C]? = some i ∧ i - (g : Int) = (k : Int))
              then 1 else 0) := by
          rw [hc1]
          apply if_congr _ rfl rfl
          rw [Nat.sub_zero]
          exact and_iff_right (Nat.zero_le C)
        have hno2 : ¬(R + 1 ≤ R ∧ (∃ row2 i, rest[R - (R + 1)]?
            = some row2 ∧ row2[C]? = some i ∧ i - (g : Int) = (k : Int))) :=
          fun hh => absurd hh.1 (by omega)
        have hiff : (∃ i, row[C]? = some i ∧ i - (g : Int) = (k : Int)) ↔
            (R ≤ R ∧ (∃ row2 i, (row :: rest)[R - R]? = some row2 ∧
              row2[C]? = some i ∧ i - (g : Int) = (k : Int))) := by
          rw [Nat.sub_self]
          constructor
          · rintro ⟨i, hi, hmi⟩
            exact ⟨Nat.le_refl R, row, i, List.getElem?_cons_zero, hi, hmi⟩
          · rintro ⟨-, row2, i, hrow2, hi, hmi⟩
            rw [List.getElem?_cons_zero] at hrow2
            obtain rfl := Option.some.inj hrow2
            exact ⟨i, hi, hmi⟩
        rw [hc1R, hc2, if_neg hno2, Nat.add_zero]
        exact if_congr hiff rfl rfl
      · have hz1 : out1.countP (atPos li R C) = 0 := by
          rw [List.countP_eq_zero]
          intro a ha hp
          have hr := (scanRow_mem g k (some (f0 :: fs)) li r0 0 row out1
            h1 a ha).2
          rw [atPos] at hp
          simp only [Bool.and_eq_true, beq_iff_eq] at hp
          rw [hr] at hp
          omega
        have hshift : R - r0 = (R - (r0 + 1)) + 1 := by omega
        have hiff : (r0 + 1 ≤ R ∧ (∃ row2 i, rest[R - (r0 + 1)]?
            = some row2 ∧ row2[C]? = some i ∧ i - (g : Int) = (k : Int))) ↔
            (r0 ≤ R ∧ (∃ row2 i, (row :: rest)[R - r0]? = some row2 ∧
              row2[C]? = some i ∧ i - (g : Int) = (k : Int))) := by
          rw [hshift, List.getElem?_cons_succ]
          constructor
          · rintro ⟨-, hi⟩
            exact ⟨by omega, hi⟩
          · rintro ⟨-, hi⟩
            exact ⟨by omega, hi⟩
        rw [hz1, hc2, Nat.zero_add]
        exact if_congr hiff rfl rfl

open scoped Classical in
/-- Exact count of instances the multi-layer scan creates at one
position: a static layer contributes nothing. -/
theorem scanLayers_count (g k : Nat) (f0 : TileFrame) (fs : List TileFrame)
    (L R C : Nat) :
    ∀ (l0 : Nat) (ls : List Layer),
      ∃ out, scanLayers g k (some (f0 :: fs)) l0 ls = some out ∧
        out.countP (atPos L R C) =
          (if l0 ≤ L ∧ (∃ lyr row i, ls[L - l0]? = some lyr ∧
              lyr.isStatic = false ∧ lyr.data[R]? = some row ∧
              row[C]? = some i ∧ i - (g : Int) = (k : Int))
            then 1 else 0) := by
  intro l0 ls
  induction ls generalizing l0 with
  | nil =>
    refine ⟨[], rfl, ?_⟩
    have hno : ¬(l0 ≤ L ∧ (∃ lyr row i, (([] : List Layer))[L - l0]?
        = some lyr ∧ lyr.isStatic = false ∧ lyr.data[R]? = some row ∧
        row[C]? = some i ∧ i - (g : Int) = (k : Int))) := by
      rintro ⟨-, lyr, row, i, hlyr, -⟩
      exact Option.noConfusion hlyr
    rw [if_neg hno]
    rfl
  | cons lyr rest ih =>
    obtain ⟨out2, h2, hc2⟩ := ih (l0 + 1)
    cases hst : lyr.isStatic with
    | true =>
      refine ⟨out2, ?_, ?_⟩
      · rw [scanLayers, hst, if_true_bool, h2]
        rfl
      · rw [hc2]
        rcases Nat.lt_trichotomy L l0 with hlt | rfl | hgt
        · have hno2 : ¬(l0 + 1 ≤ L ∧ (∃ lyr2 row i, rest[L - (l0 + 1)]?
              = some lyr2 ∧ lyr2.isStatic = false ∧ lyr2.data[R]? = some row ∧
              row[C]? = some i ∧ i - (g : Int) = (k : Int))) :=
            fun hh => absurd hh.1 (by omega)
          have hnoR : ¬(l0 ≤ L ∧ (∃ lyr2 row i, (lyr :: rest)[L - l0]?
              = some lyr2 ∧ lyr2.isStatic = false ∧ lyr2.data[R]? = some row ∧
              row[C]? = some i ∧ i - (g : Int) = (k : Int))) :=
            fun hh => absurd hh.1 (by omega)
          rw [if_neg hno2, if_neg hnoR]
        · have hno2 : ¬(L + 1 ≤ L ∧ (∃ lyr2 row i, rest[L - (L + 1)]?
              = some lyr2 ∧ lyr2.isStatic = false ∧ lyr2.data[R]? = some row ∧
              row[C]? = some i ∧ i - (g : Int) = (k : Int))) :=
            fun hh => absurd hh.1 (by omega)
          have hnoR : ¬(L ≤ L ∧ (∃ lyr2 row i, (lyr :: rest)[L - L]?
              = some lyr2 ∧ lyr2.isStatic = false ∧ lyr2.data[R]? = some row ∧
              row[C]? = some i ∧ i - (g : Int) = (k : Int))) := by
            rintro ⟨-, lyr2, row, i, hlyr2, hdyn2, -⟩
            rw [Nat.sub_self, List.getElem?_cons_zero] at hlyr2
            obtain rfl := Option.some.inj hlyr2
            rw [hst] at hdyn2
            exact Bool.noConfusion hdyn2
          rw [if_neg hno2, if_neg hnoR]
        · have hshift : L - l0 = (L - (l0 + 1)) + 1 := by omega
          have hiff : (l0 + 1 ≤ L ∧ (∃ lyr2 row i, rest[L - (l0 + 1)]?
              = some lyr2 ∧ lyr2.isStatic = false ∧ lyr2.data[R]? = some row ∧
              row[C]? = some i ∧ i - (g : Int) = (k : Int))) ↔
              (l0 ≤ L ∧ (∃ lyr2 row i, (lyr :: rest)[L - l0]? = some lyr2 ∧
                lyr2.isStatic = false ∧ lyr2.data[R]? = some row ∧
                row[C]? = some i ∧ i - (g : Int) = (k : Int))) := by
            rw [hshift, List.getElem?_cons_succ]
            constructor
            · rintro ⟨-, hi⟩
              exact ⟨by omega, hi⟩
            · rintro ⟨-, hi⟩
              exact ⟨by omega, hi⟩
          exact if_congr hiff rfl rfl
    | false =>
      obtain ⟨out1, h1, hc1⟩ := scanRows_count g k f0 fs l0 R C 0 lyr.data
      refine ⟨out1 ++ out2, ?_, ?_⟩
      · rw [scanLayers, hst, if_false_bool, h1, h2]
      · rw [List.countP_append]
        rcases Nat.lt_trichotomy L l0 with hlt | rfl | hgt
        · have hz1 : out1.countP (atPos L R C) = 0 := by
            rw [List.countP_eq_zero]
            intro a ha hp
            have hl := scanRows_mem g k (some (f0 :: fs)) l0 0 lyr.data out1
              h1 a ha
            rw [atPos] at hp
            simp only [Bool.and_eq_true, beq_iff_eq] at hp
            rw [hl] at hp
            omega
          have hno2 : ¬(l0 + 1 ≤ L ∧ (∃ lyr2 row i, rest[L - (l0 + 1)]?
              = some lyr2 ∧ lyr2.isStatic = false ∧ lyr2.data[R]? = some row ∧
              row[C]? = some i ∧ i - (g : Int) = (k : Int))) :=
            fun hh => absurd hh.1 (by omega)
          have hnoR : ¬(l0 ≤ L ∧ (∃ lyr2 row i, (lyr :: rest)[L - l0]?
              = some lyr2 ∧ lyr2.isStatic = false ∧ lyr2.data[R]? = some row ∧
              row[C]? = some i ∧ i - (g : Int) = (k : Int))) :=
            fun hh => absurd hh.1 (by omega)
          rw [hz1, hc2, if_neg hno2, if_neg hnoR]
        · have hc1R : out1.countP (atPos L R C) =
              (if (∃ row i, lyr.data[R]? = some row ∧ row[C]? = some i ∧
                i - (g : Int) = (k : Int)) then 1 else 0) := by
            rw [hc1]
            apply if_congr _ rfl rfl
            rw [Nat.sub_zero]
            exact and_iff_right (Nat.zero_le R)
          have hno2 : ¬(L + 1 ≤ L ∧ (∃ lyr2 row i, rest[L - (L + 1)]?
              = some lyr2 ∧ lyr2.isStatic = false ∧ lyr2.data[R]? = some row ∧
              row[C]? = some i ∧ i - (g : Int) = (k : Int))) :=
            fun hh => absurd hh.1 (by omega)
          have hiff : (∃ row i, lyr.data[R]? = some row ∧ row[C]? = some i ∧
              i - (g : Int) = (k : Int)) ↔
              (L ≤ L ∧ (∃ lyr2 row i, (lyr :: rest)[L - L]? = some lyr2 ∧
                lyr2.isStatic = false ∧ lyr2.data[R]? = some row ∧
                row[C]? = some i ∧ i - (g : Int) = (k : Int))) := by
            rw [Nat.sub_self]
            constructor
            · rintro ⟨row, i, hrow, hi, hmi⟩
              exact ⟨Nat.le_refl L, lyr, row, i, List.getElem?_cons_zero,
                hst, hrow, hi, hmi⟩
            · rintro ⟨-, lyr2, row, i, hlyr2, -, hrow, hi, hmi⟩
              rw [List.getElem?_cons_zero] at hlyr2
              obtain rfl := Option.some.inj hlyr2
              exact ⟨row, i, hrow, hi, hmi⟩
          rw [hc1R, hc2, if_neg hno2, Nat.add_zero]
          exact if_congr hiff rfl rfl
        · have hz1 : out1.countP (atPos L R C) = 0 := by
            rw [List.countP_eq_zero]
            intro a ha hp
            have hl := scanRows_mem g k (some (f0 :: fs)) l0 0 lyr.data out1
              h1 a ha
            rw [atPos] at hp
            simp only [Bool.and_eq_true, beq_iff_eq] at hp
            rw [hl] at hp
            omega
          have hshift : L - l0 = (L - (l0 + 1)) + 1 := by omega
          have hiff : (l0 + 1 ≤ L ∧ (∃ lyr2 row i, rest[L - (l0 + 1)]?
              = some lyr2 ∧ lyr2.isStatic = false ∧ lyr2.data[R]? = some row ∧
              row[C]? = some i ∧ i - (g : Int) = (k : Int))) ↔
              (l0 ≤ L ∧ (∃ lyr2 row i, (lyr :: rest)[L - l0]? = some lyr2 ∧
                lyr2.isStatic = false ∧ lyr2.data[R]? = some row ∧
                row[C]? = some i ∧ i - (g : Int) = (k : Int))) := by
            rw [hshift, List.getElem?_cons_succ]
            constructor
            · rintro ⟨-, hi⟩
              exact ⟨by omega, hi⟩
            · rintro ⟨-, hi⟩
              exact ⟨by omega, hi⟩
          rw [hz1, hc2, Nat.zero_add]
          exact if_congr hiff rfl rfl

open scoped Classical in
/-- Exact count of instances the whole scan creates at one position, when
every metadata entry carries a non-empty animation and the table's keys
are distinct (as JavaScript object keys are). -/
theorem scanTileData_count (g : Nat) (ls : List Layer) (L R C : Nat) :
    ∀ (tds : List (Nat × TileData)),
      (∀ p ∈ tds, ∃ f0 fs, p.2.animation = some (f0 :: fs)) →
      (tds.map Prod.fst).Nodup →
      ∃ out, scanTileData g ls tds = some out ∧
        out.countP (atPos L R C) =
          (if (∃ p ∈ tds, ∃ lyr row i, ls[L]? = some lyr ∧
              lyr.isStatic = false ∧ lyr.data[R]? = some row ∧
              row[C]? = some i ∧ i - (g : Int) = (p.1 : Int))
            then 1 else 0) := by
  intro tds
  induction tds with
  | nil =>
    intro _ _
    refine ⟨[], rfl, ?_⟩
    have hno : ¬(∃ p ∈ ([] : List (Nat × TileData)), ∃ lyr row i,
        ls[L]? = some lyr ∧ lyr.isStatic = false ∧ lyr.data[R]? = some row ∧
        row[C]? = some i ∧ i - (g : Int) = (p.1 : Int)) := by
      rintro ⟨p, hp, -⟩
      cases hp
    rw [if_neg hno]
    rfl
  | cons p rest ih =>
    intro hwf hnd
    obtain ⟨k, td⟩ := p
    obtain ⟨f0, fs, hanim⟩ := hwf (k, td) (List.mem_cons_self _ _)
    obtain ⟨out1, h1, hc1⟩ := scanLayers_count g k f0 fs L R C 0 ls
    have hnd2 : (rest.map Prod.fst).Nodup := (List.nodup_cons.mp hnd).2
    have hknotin : k ∉ rest.map Prod.fst := (List.nodup_cons.mp hnd).1
    obtain ⟨out2, h2, hc2⟩ :=
      ih (fun q hq => hwf q (List.mem_cons_of_mem _ hq)) hnd2
    refine ⟨out1 ++ out2, ?_, ?_⟩
    · rw [scanTileData, hanim, h1, h2]
    · rw [List.countP_append, hc1, hc2]
      have hA : (0 ≤ L ∧ (∃ lyr row i, ls[L - 0]? = some lyr ∧
          lyr.isStatic = false ∧ lyr.data[R]? = some row ∧
          row[C]? = some i ∧ i - (g : Int) = (k : Int))) ↔
          (∃ lyr row i, ls[L]? = some lyr ∧ lyr.isStatic = false ∧
            lyr.data[R]? = some row ∧ row[C]? = some i ∧
            i - (g : Int) = (k : Int)) := by
        rw [Nat.sub_zero]
        exact and_iff_right (Nat.zero_le L)
      by_cases hk : ∃ lyr row i, ls[L]? = some lyr ∧ lyr.isStatic = false ∧
          lyr.data[R]? = some row ∧ row[C]? = some i ∧
          i - (g : Int) = (k : Int)
      · have hno2 : ¬(∃ q ∈ rest, ∃ lyr row i, ls[L]? = some lyr ∧
            lyr.isStatic = false ∧ lyr.data[R]? = some row ∧
            row[C]? = some i ∧ i - (g : Int) = (q.1 : Int)) := by
          rintro ⟨q, hq, lyr, row, i, hlyr, -, hrow, hi, hmi⟩
          obtain ⟨lyr0, row0, i0, hlyr0, -, hrow0, hi0, hmi0⟩ := hk
          rw [hlyr] at hlyr0
          obtain rfl := Option.some.inj hlyr0
          rw [hrow] at hrow0
          obtain rfl := Option.some.inj hrow0
          rw [hi] at hi0
          obtain rfl := Option.some.inj hi0
          rw [hmi] at hmi0
          have hq1 : q.1 = k := by exact_mod_cast hmi0
          exact hknotin (List.mem_map.mpr ⟨q, hq, hq1⟩)
        have hyes : ∃ q ∈ (k, td) :: rest, ∃ lyr row i, ls[L]? = some lyr ∧
            lyr.isStatic = false ∧ lyr.data[R]? = some row ∧
            row[C]? = some i ∧ i - (g : Int) = (q.1 : Int) :=
          ⟨(k, td), List.mem_cons_self _ _, hk⟩
        rw [if_pos (hA.mpr hk), if_neg hno2, if_pos hyes]
      · have hiff : (∃ q ∈ rest, ∃ lyr row i, ls[L]? = some lyr ∧
            lyr.isStatic = false ∧ lyr.data[R]? = some row ∧
            row[C]? = some i ∧ i - (g : Int) = (q.1 : Int)) ↔
            (∃ q ∈ (k, td) :: rest, ∃ lyr row i, ls[L]? = some lyr ∧
              lyr.isStatic = false ∧ lyr.data[R]? = some row ∧
              row[C]? = some i ∧ i - (g : Int) = (q.1 : Int)) := by
          constructor
          · rintro ⟨q, hq, hC⟩
            exact ⟨q, List.mem_cons_of_mem _ hq, hC⟩
          · rintro ⟨q, hq, hC⟩
            rcases List.mem_cons.mp hq with rfl | hq2
            · exact absurd hC hk
            · exact ⟨q, hq2, hC⟩
        rw [if_neg (fun hc => hk (hA.mp hc)), Nat.zero_add]
        exact if_congr hiff rfl rfl

open scoped Classical in
/-- C5: the scan creates exactly one Animated Tile Instance for each
placed tile of a dynamic layer whose display index minus the tileset's
first gid equals a key of the animation-carrying metadata table, and
zero instances for every other placed tile (no matching key, or static
layer).  Hypotheses: every metadata entry carries a non-empty animation
(the table is the spec's "animation table") and its keys are distinct,
as JavaScript object keys are. -/
theorem createAnimatedTiles_exact (tileset : Tileset) (layers : List Layer)
    (hwf : ∀ p ∈ tileset.tileData, ∃ f0 fs, p.2.animation = some (f0 :: fs))
    (hnd : (tileset.tileData.map Prod.fst).Nodup) :
    ∃ ats, createAnimatedTiles tileset layers = some ats ∧
      ∀ L R C : Nat, ats.countP (atPos L R C) =
        (if (∃ p ∈ tileset.tileData, ∃ lyr row i, layers[L]? = some lyr ∧
            lyr.isStatic = false ∧ lyr.data[R]? = some row ∧
            row[C]? = some i ∧
            i - (tileset.firstgid : Int) = (p.1 : Int))
          then 1 else 0) := by
  obtain ⟨out0, h0, -⟩ :=
    scanTileData_count tileset.firstgid layers 0 0 0 tileset.tileData hwf hnd
  refine ⟨out0, h0, ?_⟩
  intro L R C
  obtain ⟨out1, h1, hc1⟩ :=
    scanTileData_count tileset.firstgid layers L R C tileset.tileData hwf hnd
  rw [h0] at h1
  obtain rfl := Option.some.inj h1
  exact hc1

open scoped Classical in
/-- Witness: one dynamic layer holding the single tile `6`, one metadata
key `5` with animation, `firstgid = 1`, so the tile matches the key. -/
theorem createAnimatedTiles_exact_witness :
    ∃ ats, createAnimatedTiles
        { firstgid := 1
          tileData := [(5, { animation := some [⟨100, 7⟩, ⟨100, 5⟩] })] }
        [{ isStatic := false, data := [[6]] }] = some ats ∧
      ∀ L R C : Nat, ats.countP (atPos L R C) =
        (if (∃ p ∈ [((5 : Nat),
              ({ animation := some [⟨100, 7⟩, ⟨100, 5⟩] } : TileData))],
            ∃ lyr row i,
            [({ isStatic := false, data := [[6]] } : Layer)][L]? = some lyr ∧
            lyr.isStatic = false ∧ lyr.data[R]? = some row ∧
            row[C]? = some i ∧ i - ((1 : Nat) : Int) = (p.1 : Int))
          then 1 else 0) :=
  createAnimatedTiles_exact
    { firstgid := 1
      tileData := [(5, { animation := some [⟨100, 7⟩, ⟨100, 5⟩] })] }
    [{ isStatic := false, data := [[6]] }]
    (fun p hp => by
      rw [List.mem_singleton] at hp
      subst hp
      exact ⟨⟨100, 7⟩, [⟨100, 5⟩], rfl⟩)
    (by simp)
